import Mathlib

/-!
Verification of the Reconciliation & Classification Engine of the
agente-financeiro repository.

The JavaScript sources (src/services/feegow.js and src/services/excel.js)
are shallowly embedded below:
  - JS strings are embedded as List Char (written via String.data);
  - JS numbers holding monetary values are embedded as Rat;
  - dates parsed from DD/MM/YYYY strings are embedded as DateDMY triples,
    and the millisecond arithmetic of new Date(y, m-1, d) is embedded as the
    standard civil-calendar day number (daysFromCivil), so that the
    day-difference computed by the code is the difference of day numbers;
  - the external Feegow API is embedded as an Env record of pure functions
    giving the (post-retry) responses the code observes;
  - module-level mutable state (usedProposalIds, appointmentsCache) is
    embedded as explicit state threaded through the functions.
-/

-- The Batteries rational-number operations are irreducible by default,
-- which blocks evaluation of the embedded monetary arithmetic inside
-- decide; restore ordinary unfolding for them.
set_option allowUnsafeReducibility true in
attribute [semireducible] Rat.add Rat.sub Rat.mul Rat.inv Rat.ofScientific

namespace AgenteFinanceiro

/-- Embedded string type: a JavaScript string as its list of characters. -/
abbrev Str := List Char

/-- JavaScript String.prototype.toLowerCase restricted to the Latin-1 range
(the only characters occurring in the classifier's data): ASCII A-Z and the
accented capitals U+00C0..U+00DE (except the multiplication sign U+00D7) map
32 code points up. -/
def jsLower (c : Char) : Char :=
  if 65 ≤ c.toNat ∧ c.toNat ≤ 90 then Char.ofNat (c.toNat + 32)
  else if 0xC0 ≤ c.toNat ∧ c.toNat ≤ 0xDE ∧ c.toNat ≠ 0xD7 then Char.ofNat (c.toNat + 32)
  else c

/-- Lowercase a whole string, as name.toLowerCase() in the classifier. -/
def lowerStr (s : Str) : Str := s.map jsLower

/-- pat begins the string s (character-wise). -/
def startsWithL : Str → Str → Bool
  | [], _ => true
  | _ :: _, [] => false
  | a :: as, b :: bs => a = b && startsWithL as bs

/-- JavaScript String.prototype.includes: pat occurs contiguously in s. -/
def hasSubL (pat : Str) : Str → Bool
  | [] => pat.isEmpty
  | b :: bs => startsWithL pat (b :: bs) || hasSubL pat bs

/-- A JavaScript string is truthy iff it is nonempty. -/
def strTruthy (s : Str) : Bool := !s.isEmpty

/-- A JavaScript numeric field is truthy iff present and nonzero. -/
def natTruthy : Option Nat → Bool
  | some n => n ≠ 0
  | none => false

/-- The regex digit class backslash-d of the splitter: the ASCII digits. -/
def isDigitJS (c : Char) : Bool := decide (48 ≤ c.toNat ∧ c.toNat ≤ 57)

/-- The letter class [A-Za-zÀ-ú] of the splitter in feegow.js line 350:
ASCII letters plus the code points U+00C0..U+00FA. -/
def isSplitLetter (c : Char) : Bool :=
  decide ((65 ≤ c.toNat ∧ c.toNat ≤ 90) ∨ (97 ≤ c.toNat ∧ c.toNat ≤ 122) ∨
    (0xC0 ≤ c.toNat ∧ c.toNat ≤ 0xFA))

/-- The regex whitespace class backslash-s of JavaScript. -/
def isJsSpace (c : Char) : Bool :=
  decide (c.toNat = 32 ∨ c.toNat = 9 ∨ c.toNat = 10 ∨ c.toNat = 13 ∨
    c.toNat = 0x0b ∨ c.toNat = 0x0c ∨ c.toNat = 0xa0 ∨ c.toNat = 0x1680 ∨
    (0x2000 ≤ c.toNat ∧ c.toNat ≤ 0x200a) ∨ c.toNat = 0x2028 ∨
    c.toNat = 0x2029 ∨ c.toNat = 0x202f ∨ c.toNat = 0x205f ∨
    c.toNat = 0x3000 ∨ c.toNat = 0xfeff)

/-- Lookahead of the second split alternative: optional whitespace, then a
digit sequence immediately followed by the masculine ordinal sign.  Greedy
matching with backtracking forces the digit run to be maximal, since the
ordinal sign is not a digit. -/
def ordAfter (r : Str) : Bool :=
  let r2 := r.dropWhile isJsSpace
  let ds := r2.takeWhile isDigitJS
  !ds.isEmpty &&
    (match r2.drop ds.length with
     | c :: _ => c.toNat = 0xBA
     | [] => false)

/-- Whether the comma just consumed is a split point: the characters after it
match one of the two lookaheads of the regex on feegow.js line 350
(optional whitespace then a letter, or optional whitespace then digits
followed by the ordinal sign). -/
def splitHere (rest : Str) : Bool :=
  (match rest.dropWhile isJsSpace with
   | c :: _ => isSplitLetter c
   | [] => false) || ordAfter rest

/-- Accumulating worker for the comma split (separator commas are consumed,
as String.prototype.split does). -/
def splitNamesAux : Str → Str → List Str
  | acc, [] => [acc.reverse]
  | acc, c :: rest =>
    if c.toNat = 44 && splitHere rest then acc.reverse :: splitNamesAux [] rest
    else splitNamesAux (c :: acc) rest

/-- JavaScript String.prototype.trim over the whitespace class. -/
def jsTrim (s : Str) : Str :=
  ((s.dropWhile isJsSpace).reverse.dropWhile isJsSpace).reverse

/-- NomeProcedimento.split(regex).map(trim).filter(nonempty) from
feegow.js lines 349-351 and 471-473. -/
def splitProcedureNames (s : Str) : List Str :=
  ((splitNamesAux [] s).map jsTrim).filter (fun t => strTruthy t)

/-- The report-name tokens of a transaction name field, with the JavaScript
truthiness guard on the field itself. -/
def reportNamesOf (nome : Str) : List Str :=
  if strTruthy nome then splitProcedureNames nome else []

/-! ## Procedure Classifier (excel.js) -/

/-- The COLUMNS object of excel.js: spreadsheet column letter per name. -/
def columnsTable : List (Str × Str) :=
  [("DATA".data, "A".data), ("NOME".data, "B".data), ("VENDA".data, "C".data),
   ("AVALIACAO".data, "D".data), ("TRATAMENTO".data, "E".data),
   ("DESCONTO".data, "F".data), ("DR_RIGATTI".data, "G".data),
   ("IMPLANTE".data, "H".data), ("SORO_DR".data, "I".data),
   ("TIRZEPATIDA".data, "J".data), ("APLICACOES".data, "K".data),
   ("ONLINE".data, "L".data), ("COMISSAO".data, "M".data),
   ("NUTRIS".data, "N".data), ("EXTRA".data, "O".data),
   ("ESTORNO_PROC".data, "P".data), ("DINHEIRO".data, "Q".data),
   ("SICOOB".data, "R".data), ("SAFRA".data, "S".data),
   ("PIX_SAFRA".data, "T".data), ("INFINITE".data, "U".data),
   ("PIX".data, "V".data), ("CHEQUE".data, "W".data), ("BOLETO".data, "X".data),
   ("OBSERVACAO".data, "AG".data), ("JUROS_CARTAO".data, "Z".data),
   ("TX_SICOOB".data, "AA".data), ("TX_INFINITE".data, "AB".data),
   ("TX_SAFRA".data, "AC".data), ("ESTORNO".data, "AD".data),
   ("NP_ABERTA".data, "AE".data), ("BOLETO_2".data, "AF".data)]

/-- COLUMNS[name] with the JavaScript fallback to the raw value
(COLUMNS[columnById] or columnById in classifyProcedure). -/
def colOfName (n : Str) : Str :=
  match columnsTable.find? (fun p => p.1 = n) with
  | some p => p.2
  | none => n

/-- COLUMN_NAMES: the reverse of COLUMNS (all letters are distinct), with the
raw letter as fallback. -/
def columnName (c : Str) : Str :=
  match columnsTable.find? (fun p => p.2 = c) with
  | some p => p.1
  | none => c

/-- The ordered PROCEDURE_MAPPING table of excel.js (JavaScript object keys
keep insertion order): case-insensitive substring pattern to column letter. -/
def PROCEDURE_MAPPING : List (Str × Str) :=
  [("nutricional".data, "N".data),
   ("avalia".data, "D".data),
   ("rigatti".data, "G".data),
   ("recompra".data, "G".data),
   ("protocolo".data, "G".data),
   ("online".data, "L".data),
   ("consulta".data, "D".data),
   ("victor".data, "O".data),
   ("implante".data, "H".data),
   ("soro".data, "I".data),
   ("soroterapia".data, "I".data),
   ("noripurum".data, "I".data),
   ("tirzepatida".data, "J".data),
   ("injetável".data, "K".data),
   ("injetavel".data, "K".data),
   ("cipionato".data, "K".data),
   ("testosterona".data, "K".data),
   ("blend".data, "K".data),
   ("gh ".data, "K".data),
   ("genotropin".data, "K".data),
   ("omnitrope".data, "K".data),
   ("nutri".data, "N".data),
   ("tratamento proposto".data, "G".data),
   ("juros".data, "Z".data),
   ("estorno".data, "P".data)]

/-- Result of classifyProcedure: destination column (null means discard)
and the classificadoPor provenance tag. -/
structure Classification where
  column : Option Str
  classificadoPor : Str
deriving DecidableEq

/-- The name-pattern stage of classifyProcedure: first matching pattern of
the ordered table wins, otherwise the EXTRA column with fallback provenance. -/
def classifyByName (procedureName : Str) : Classification :=
  let normalizedName := lowerStr procedureName
  match PROCEDURE_MAPPING.find? (fun pc => hasSubL (lowerStr pc.1) normalizedName) with
  | some pc => ⟨some pc.2, "nome".data⟩
  | none => ⟨some "O".data, "fallback".data⟩

/-- The id stage of classifyProcedure: requires a truthy procedure id, a
loaded group mapping, and the id present in it; yields the mapped column
letter. -/
def idLookup (gm : Option (List (Nat × Str))) (pid : Option Nat) : Option Str :=
  match pid, gm with
  | some p, some m =>
    if p ≠ 0 then (m.find? (fun e => e.1 = p)).map (fun e => colOfName e.2)
    else none
  | _, _ => none

/-- classifyProcedure from excel.js lines 252-273: id has priority, then the
ordered name patterns, then the EXTRA fallback. -/
def classifyProcedure (gm : Option (List (Nat × Str))) (procedureName : Str)
    (procedureId : Option Nat) : Classification :=
  match idLookup gm procedureId with
  | some col => ⟨some col, "id".data⟩
  | none => classifyByName procedureName

/-! ## Group mapping (fetchGroupMapping, feegow.js) -/

/-- One group of the procedures/groups response: group id and member
procedure ids. -/
structure ApiGroup where
  id : Nat
  procedimentos : List Nat
deriving DecidableEq

/-- GROUP_TO_COLUMN of fetchGroupMapping. -/
def GROUP_TO_COLUMN : List (Nat × Str) :=
  [(1, "IMPLANTE".data), (2, "APLICACOES".data), (4, "SORO_DR".data),
   (5, "EXTRA".data)]

/-- OVERRIDES of fetchGroupMapping; none is the explicit discard value. -/
def OVERRIDES : List (Nat × Option Str) :=
  [(58, some "TIRZEPATIDA".data), (144, some "TIRZEPATIDA".data),
   (16, some "AVALIACAO".data), (17, some "ONLINE".data),
   (18, some "NUTRIS".data), (19, some "ONLINE".data),
   (20, none),
   (22, some "NUTRIS".data), (23, some "AVALIACAO".data),
   (24, some "NUTRIS".data), (104, some "DR_RIGATTI".data),
   (105, some "DR_RIGATTI".data), (106, some "DR_RIGATTI".data),
   (107, some "DR_RIGATTI".data), (108, some "DR_RIGATTI".data),
   (109, some "NUTRIS".data), (110, some "NUTRIS".data),
   (111, some "NUTRIS".data), (112, some "NUTRIS".data),
   (137, some "ONLINE".data)]

/-- Map.prototype.set on an association list: replace the binding if present,
append it otherwise. -/
def mapSet (m : List (Nat × Str)) (k : Nat) (v : Str) : List (Nat × Str) :=
  if m.any (fun e => e.1 = k) then m.map (fun e => if e.1 = k then (k, v) else e)
  else m ++ [(k, v)]

/-- The mapping-construction loop of fetchGroupMapping: overrides take
priority over the group default; a null override is not inserted at all. -/
def buildGroupMapping (groups : List ApiGroup) : List (Nat × Str) :=
  groups.foldl (fun m g =>
    let groupColumn := (GROUP_TO_COLUMN.find? (fun e => e.1 = g.id)).map Prod.snd
    g.procedimentos.foldl (fun m2 pid =>
      match OVERRIDES.find? (fun e => e.1 = pid) with
      | some ov =>
        match ov.2 with
        | some col => mapSet m2 pid col
        | none => m2
      | none =>
        match groupColumn with
        | some col => mapSet m2 pid col
        | none => m2) m) []

/-! ## Dates -/

/-- A calendar date as parsed from a DD/MM/YYYY string by
s.split(sep).map(Number). -/
structure DateDMY where
  day : Nat
  month : Nat
  year : Nat
deriving DecidableEq

/-- Day number of a civil date (standard civil-from-days algorithm).  For
in-range dates this equals new Date(y, m-1, d).getTime() divided by the
86400000 ms of a day, which is how the payment-only check measures the
distance between two dates. -/
def daysFromCivil (y m d : Int) : Int :=
  let y2 := if m ≤ 2 then y - 1 else y
  let era : Int := (if 0 ≤ y2 then y2 else y2 - 399) / 400
  let yoe := y2 - era * 400
  let mp := (m + 9) % 12
  let doy := (153 * mp + 2) / 5 + d - 1
  let doe := yoe * 365 + yoe / 4 - yoe / 100 + doy
  era * 146097 + doe - 719468

/-- Day number of an embedded date. -/
def dateDays (d : DateDMY) : Int :=
  daysFromCivil (d.year : Int) (d.month : Int) (d.day : Int)

/-- The daysDiff quantity of enrichTransactionWithItems: absolute distance
in days between two dates. -/
def daysDiffD (a b : DateDMY) : Int := |dateDays a - dateDays b|

/-! ## Data model (feegow.js) -/

/-- A proposal line item (an entry of proposal.procedimentos.data).  A
missing or zero quantidade is embedded as 0; the code replaces both by 1. -/
structure PItem where
  procedimento_id : Nat
  nome : Str
  valor : Rat
  quantidade : Nat
  desconto : Rat
  acrescimo : Rat
deriving DecidableEq

/-- A proposal from the proposal/list response (procedimentos.data flattened
into items, with the JavaScript null-guards folded in). -/
structure Proposal where
  proposal_id : Nat
  status : Str
  value : Rat
  items : List PItem
deriving DecidableEq

/-- An invoice line item (values in cents, as the invoice endpoint returns). -/
structure InvItem where
  procedimento_id : Nat
  valor : Rat
  quantidade : Nat
  desconto : Rat
deriving DecidableEq

/-- A raw transaction of the financial-movement report.  Optional numeric
fields are Option Nat (with some 0 also falsy, as in JavaScript); a missing
NomeProcedimento is the empty (falsy) string; Quantidade 0 stands for a
missing or zero field. -/
structure Transaction where
  PacienteID : Option Nat
  NomePaciente : Str
  Data : DateDMY
  Value : Rat
  NomeProcedimento : Str
  ProcedimentoID : Option Nat
  NumeroInvoice : Option Nat
  Quantidade : Nat
deriving DecidableEq

/-- An appointment of the appoints/search response: its data field is a
DD-MM-YYYY string; missing notas is the empty string. -/
structure Appt where
  data : Str
  telemedicina : Bool
  notas : Str
deriving DecidableEq

/-- The outcome of fetchPatientAppointments after the retry loop: either the
appointment list, or the soft apiError signal (with an empty list). -/
structure ApptFetch where
  appointments : List Appt
  apiError : Bool
deriving DecidableEq

/-- The external Feegow API as observed by the engine: the (post-retry)
responses of the endpoints the enrichment and validation logic consults.
appoints takes the patient id and the raw processing-date string (the code
derives a window of plus or minus 7 days from it before calling the API). -/
structure Env where
  invoiceProposalDate : Nat → Option DateDMY
  patientProposals : Nat → DateDMY → List Proposal
  invoiceItems : Nat → DateDMY → List InvItem
  procedureName : Nat → Option Str
  appoints : Nat → Str → ApptFetch

/-- fetchPatientProposals keeps only proposals with status Executada (its
per-patient-and-date cache memoizes a pure lookup and is semantically
transparent, so it is not threaded). -/
def fetchPatientProposalsM (env : Env) (pid : Nat) (d : DateDMY) : List Proposal :=
  (env.patientProposals pid d).filter (fun p => p.status = "Executada".data)

/-! ## Proposal Matcher (findMatchingProposal, feegow.js lines 345-396) -/

/-- Math.abs on an embedded number. -/
def ratAbs (x : Rat) : Rat := if x < 0 then -x else x

/-- The sort key of the ambiguous single-procedure case: absolute distance
between the proposal total and the transaction value. -/
def absDelta (t : Rat) (p : Proposal) : Rat := ratAbs (p.value - t)

/-- Insertion step of a stable sort by absDelta. -/
def insertByDelta (t : Rat) (p : Proposal) : List Proposal → List Proposal
  | [] => [p]
  | q :: qs =>
    if absDelta t p ≤ absDelta t q then p :: q :: qs else q :: insertByDelta t p qs

/-- Stable sort by absDelta; agrees with Array.prototype.sort under the
comparator of feegow.js lines 364-366, since stable sorting under a total
preorder is unique. -/
def sortByDelta (t : Rat) : List Proposal → List Proposal
  | [] => []
  | p :: ps => insertByDelta t p (sortByDelta t ps)

/-- The candidate filter of the single-procedure case: proposals containing
a line item whose procedure id equals the transaction's. -/
def singleMatchCandidates (t : Transaction) (ps : List Proposal) : List Proposal :=
  ps.filter (fun p => p.items.any (fun it => t.ProcedimentoID == some it.procedimento_id))

/-- Overlap count of the multi-procedure case: how many of the proposal's
line-item procedure ids (with multiplicity) occur among the invoice ids. -/
def overlapCount (invIds : List Nat) (p : Proposal) : Nat :=
  ((p.items.map (fun q => q.procedimento_id)).filter (fun i => invIds.contains i)).length

/-- One iteration of the best-overlap fold of the multi-procedure case. -/
def bestStep (invIds : List Nat) (a : Option Proposal × Nat) (p : Proposal) :
    Option Proposal × Nat :=
  if a.2 < overlapCount invIds p then (some p, overlapCount invIds p) else a

/-- The best-overlap fold of the multi-procedure case: keeps the first
proposal attaining each strictly larger overlap count. -/
def bestOverlap (invIds : List Nat) (ps : List Proposal) : Option Proposal × Nat :=
  ps.foldl (bestStep invIds) (none, 0)

/-- findMatchingProposal: single-procedure transactions match by procedure
id (ambiguity resolved by closest total value), multi-procedure transactions
by invoice-item overlap of at least 2; anything else is no match. -/
def findMatchingProposal (env : Env) (t : Transaction) (proposals : List Proposal) :
    Option Proposal :=
  if proposals.isEmpty then none
  else
    let names := reportNamesOf t.NomeProcedimento
    let isMulti := decide (1 < names.length)
    if !isMulti && natTruthy t.ProcedimentoID then
      let candidates := singleMatchCandidates t proposals
      if candidates.length = 1 then candidates.head?
      else if 1 < candidates.length then (sortByDelta t.Value candidates).head?
      else none
    else if isMulti && natTruthy t.NumeroInvoice then
      let items := env.invoiceItems (t.NumeroInvoice.getD 0) t.Data
      if !items.isEmpty then
        let invoiceProcIds := items.map (fun i => i.procedimento_id)
        let best := bestOverlap invoiceProcIds proposals
        if 2 ≤ best.2 then best.1 else none
      else none
    else none

/-! ## Transaction Enricher (enrichTransactionWithItems, feegow.js) -/

/-- The fonteItens tag of an enriched transaction. -/
inductive Source where
  | proposal
  | invoice
  | reportSingle
  | reportDistributed
  | paymentOnly
deriving DecidableEq

/-- A detailed item of an enriched transaction.  Fields the code leaves
undefined on some paths (desconto, acrescimo) are embedded as 0, which the
consumers treat identically (both are falsy and add nothing). -/
structure DItem where
  procedimento_id : Option Nat
  nome : Str
  valor : Rat
  quantidade : Nat
  desconto : Rat
  acrescimo : Rat
deriving DecidableEq

/-- The enriched transaction.  consumedProposal is the audit field of the
embedding: the id the code adds to usedProposalIds when the proposal path
commits (the code logs it and copies the proposal's items at that moment). -/
structure Enriched where
  tx : Transaction
  paymentOnly : Bool
  fonteItens : Source
  detailedItems : List DItem
  consumedProposal : Option Nat
deriving DecidableEq

/-- The quantidade-or-1 idiom (q or 1 in JavaScript). -/
def qtyOr1 (n : Nat) : Nat := if n = 0 then 1 else n

/-- The string-or-default idiom (s or d in JavaScript, empty string falsy). -/
def strOr (s : Option Str) (d : Str) : Str :=
  match s with
  | some v => if v.isEmpty then d else v
  | none => d

/-- The payment-only guard of enrichTransactionWithItems lines 408-429: a
truthy invoice whose resolved proposal date differs (as a string, hence as a
date) from the transaction date by more than 30 days. -/
def paymentOnlyHit (env : Env) (t : Transaction) : Bool :=
  match t.NumeroInvoice with
  | some inv =>
    if inv ≠ 0 then
      match env.invoiceProposalDate inv with
      | some pd => pd ≠ t.Data && decide (30 < daysDiffD pd t.Data)
      | none => false
    else false
  | none => false

/-- The classified items built from an accepted proposal (valor is the unit
value times the quantity; proposal values are already in reais). -/
def proposalItems (mp : Proposal) : List DItem :=
  mp.items.map (fun proc =>
    ⟨some proc.procedimento_id, proc.nome,
     proc.valor * (qtyOr1 proc.quantidade : Nat), qtyOr1 proc.quantidade,
     proc.desconto, proc.acrescimo⟩)

/-- The proposal path of enrichTransactionWithItems lines 432-462: fetch the
patient's executed proposals for the transaction date, drop the ones whose id
is already in usedProposalIds, run the matcher, and commit (mark the id used)
only when the match has line items. -/
def tryProposal (env : Env) (used : List Nat) (t : Transaction) :
    Option (Enriched × List Nat) :=
  match t.PacienteID with
  | some pid =>
    if pid ≠ 0 then
      let proposals := fetchPatientProposalsM env pid t.Data
      let available := proposals.filter (fun p => !used.contains p.proposal_id)
      if !available.isEmpty then
        match findMatchingProposal env t available with
        | some mp =>
          if !mp.items.isEmpty then
            some (⟨t, false, Source.proposal, proposalItems mp, some mp.proposal_id⟩,
              used ++ [mp.proposal_id])
          else none
        | none => none
      else none
    else none
  | none => none

/-- The report/invoice fallback of enrichTransactionWithItems lines 464-547:
a single token uses the report data directly; several tokens use the invoice
line items when available and an equal split of the value otherwise. -/
def fallbackEnrich (env : Env) (t : Transaction) : Enriched :=
  let names := reportNamesOf t.NomeProcedimento
  if names.length ≤ 1 then
    ⟨t, false, Source.reportSingle,
     [⟨t.ProcedimentoID, strOr (some t.NomeProcedimento) "Procedimento".data,
       t.Value, qtyOr1 t.Quantidade, 0, 0⟩], none⟩
  else if !natTruthy t.NumeroInvoice then
    ⟨t, false, Source.reportDistributed,
     names.map (fun nome => ⟨none, nome, t.Value / (names.length : Nat), 1, 0, 0⟩),
     none⟩
  else
    let items := env.invoiceItems (t.NumeroInvoice.getD 0) t.Data
    if items.isEmpty then
      ⟨t, false, Source.reportDistributed,
       names.map (fun nome => ⟨none, nome, t.Value / (names.length : Nat), 1, 0, 0⟩),
       none⟩
    else
      ⟨t, false, Source.invoice,
       items.map (fun it =>
         ⟨some it.procedimento_id,
          strOr (env.procedureName it.procedimento_id)
            ("Procedimento #".data ++ Nat.toDigits 10 it.procedimento_id),
          it.valor / 100, qtyOr1 it.quantidade, it.desconto / 100, 0⟩),
       none⟩

/-- enrichTransactionWithItems: payment-only check, then the proposal path,
then the report/invoice fallback; returns the enriched transaction and the
updated usedProposalIds state. -/
def enrichTransactionWithItems (env : Env) (used : List Nat) (t : Transaction) :
    Enriched × List Nat :=
  if paymentOnlyHit env t then (⟨t, true, Source.paymentOnly, [], none⟩, used)
  else
    match tryProposal env used t with
    | some r => r
    | none => (fallbackEnrich env t, used)

/-- The sequential enrichment loop of fetchDetailedTransactions (strictly in
order, threading usedProposalIds). -/
def enrichAll (env : Env) : List Nat → List Transaction → List Enriched × List Nat
  | used, [] => ([], used)
  | used, t :: ts =>
    let r := enrichTransactionWithItems env used t
    let rest := enrichAll env r.2 ts
    (r.1 :: rest.1, rest.2)

/-! ## Batch state (feegow.js module state) -/

/-- The module-level mutable state of feegow.js that outlives a single
enrichment: the usedProposalIds set and the per-patient appointmentsCache. -/
structure BatchState where
  used : List Nat
  apptCache : List (Nat × ApptFetch)
deriving DecidableEq

/-- fetchDetailedTransactions lines 556-580: clears usedProposalIds, then
enriches the day's transactions strictly in order.  The appointmentsCache is
not touched here (and clearAppointmentsCache has no caller in the
repository), so it is carried through unchanged. -/
def fetchDetailedTransactionsM (env : Env) (st : BatchState)
    (txs : List Transaction) : List Enriched × BatchState :=
  let r := enrichAll env [] txs
  (r.1, ⟨r.2, st.apptCache⟩)

/-- The proposal ids consumed by a list of enriched transactions. -/
def consumedIds (es : List Enriched) : List Nat :=
  es.filterMap (fun e => e.consumedProposal)

/-! ## Appointment Validator (feegow.js lines 586-701) -/

/-- fetchPatientAppointments with its per-patient cache: a cached entry is
returned as is (the date argument is not part of the key); otherwise the
(post-retry) API outcome is stored, error outcomes included. -/
def fetchPatientAppointmentsM (env : Env) (cache : List (Nat × ApptFetch))
    (pid : Nat) (dateStr : Str) : ApptFetch × List (Nat × ApptFetch) :=
  match cache.find? (fun e => e.1 = pid) with
  | some e => (e.2, cache)
  | none =>
    let r := env.appoints pid dateStr
    (r, cache ++ [(pid, r)])

/-- Accumulating worker splitting a string at every separator occurrence. -/
def splitOnAux (sep : Char) : Str → Str → List Str
  | acc, [] => [acc.reverse]
  | acc, c :: rest =>
    if c = sep then acc.reverse :: splitOnAux sep [] rest
    else splitOnAux sep (c :: acc) rest

/-- Normalisation of the processing date to DD-MM-YYYY for comparison with
appointment dates (checkAppointmentDate lines 682-688).  Dates reaching this
point are well formed, so the YYYY-MM-DD branch sees three components. -/
def normProcDate (s : Str) : Str :=
  if s.contains '/' then s.map (fun c => if c = '/' then '-' else c)
  else
    match splitOnAux '-' [] s with
    | [y, m, d] => d ++ '-' :: m ++ '-' :: y
    | _ => s

/-- The result of checkAppointmentDate. -/
structure ApptCheck where
  hasAppointmentToday : Bool
  isOnlineConsultation : Bool
  apiError : Bool
deriving DecidableEq

/-- checkAppointmentDate: an upstream failure yields the apiError signal;
otherwise the patient has an appointment today iff some returned appointment
carries exactly the normalised processing date; the online flag scans the
telemedicina field and the notas text. -/
def checkAppointmentDateM (env : Env) (cache : List (Nat × ApptFetch))
    (pid : Nat) (processingDate : Str) : ApptCheck × List (Nat × ApptFetch) :=
  let r := fetchPatientAppointmentsM env cache pid processingDate
  if r.1.apiError then (⟨false, false, true⟩, r.2)
  else
    let procDateNorm := normProcDate processingDate
    let hasToday := r.1.appointments.any (fun a => a.data = procDateNorm)
    let isOnline := r.1.appointments.any (fun a =>
      a.telemedicina || hasSubL "consulta online".data (lowerStr a.notas))
    (⟨hasToday, isOnline, false⟩, r.2)

/-! ## buildRow item classification (excel.js lines 755-829) -/

/-- formatValue of excel.js: the identity on numbers (non-numbers, mapped to
0 there, are not representable in this embedding). -/
def formatValue (v : Rat) : Rat := v

/-- A classificationDetails entry of buildRow. -/
structure Detail where
  procedimentoId : Option Nat
  nome : Str
  valor : Rat
  quantidade : Nat
  desconto : Rat
  colunaDestino : Option Str
  colunaDestinoNome : Str
  classificadoPor : Str
deriving DecidableEq

/-- The procedureValues accumulation idiom of buildRow: add to the column's
entry, creating it at 0 first. -/
def addVal (m : List (Str × Rat)) (k : Str) (v : Rat) : List (Str × Rat) :=
  if m.any (fun e => e.1 = k) then
    m.map (fun e => if e.1 = k then (e.1, e.2 + v) else e)
  else m ++ [(k, v)]

/-- Value of a column in the accumulated procedureValues (0 if absent). -/
def lookupVal (m : List (Str × Rat)) (k : Str) : Rat :=
  match m.find? (fun e => e.1 = k) with
  | some e => e.2
  | none => 0

/-- The state of the detailed-items loop of buildRow: accumulated procedure
values per column, the running discount total, the classification details,
and the appointments cache threaded through checkAppointmentDate. -/
structure ItemsAcc where
  procVals : List (Str × Rat)
  discountTotal : Rat
  details : List Detail
  cache : List (Nat × ApptFetch)
deriving DecidableEq

/-- The normal-accumulation detail entry. -/
def normalDetail (item : DItem) (column : Str) (por : Str) : Detail :=
  ⟨item.procedimento_id, item.nome, formatValue item.valor,
   qtyOr1 item.quantidade, item.desconto, some column, columnName column, por⟩

/-- One iteration of the detailed-items loop of buildRow: accumulate the
item's discount, classify it, and route its value — discarding on a null
column, diverting an evaluation item without a same-day appointment to the
SINAL_ANTECIPADO marker (and undoing its discount), and accumulating into
the destination column otherwise. -/
def stepItem (env : Env) (gm : Option (List (Nat × Str))) (pid : Nat)
    (referenceDate : Str) (acc : ItemsAcc) (item : DItem) : ItemsAcc :=
  let dt :=
    if 0 < item.desconto then
      acc.discountTotal + item.desconto * (qtyOr1 item.quantidade : Nat)
    else acc.discountTotal
  let cls := classifyProcedure gm item.nome item.procedimento_id
  match cls.column with
  | none =>
    ⟨acc.procVals, dt,
     acc.details ++
       [⟨item.procedimento_id, item.nome, formatValue item.valor,
         qtyOr1 item.quantidade, item.desconto, none, "DESCARTADO".data,
         cls.classificadoPor⟩],
     acc.cache⟩
  | some column =>
    if column = "D".data then
      let chk := checkAppointmentDateM env acc.cache pid referenceDate
      if chk.1.apiError then
        ⟨addVal acc.procVals column (formatValue item.valor), dt,
         acc.details ++ [normalDetail item column cls.classificadoPor], chk.2⟩
      else if !chk.1.hasAppointmentToday then
        let dt2 :=
          if 0 < item.desconto then
            dt - item.desconto * (qtyOr1 item.quantidade : Nat)
          else dt
        ⟨acc.procVals, dt2,
         acc.details ++
           [⟨item.procedimento_id, item.nome, formatValue item.valor,
             qtyOr1 item.quantidade, item.desconto, none,
             "SINAL_ANTECIPADO".data, "agendamento-futuro".data⟩],
         chk.2⟩
      else
        ⟨addVal acc.procVals column (formatValue item.valor), dt,
         acc.details ++ [normalDetail item column cls.classificadoPor], chk.2⟩
    else
      ⟨addVal acc.procVals column (formatValue item.valor), dt,
       acc.details ++ [normalDetail item column cls.classificadoPor],
       acc.cache⟩

/-- The detailed-items loop of buildRow (excel.js lines 762-829), applied in
order to the group's items. -/
def processItems (env : Env) (gm : Option (List (Nat × Str))) (pid : Nat)
    (referenceDate : Str) (acc : ItemsAcc) (items : List DItem) : ItemsAcc :=
  items.foldl (stepItem env gm pid referenceDate) acc

/-! ## Helper lemmas -/

/-- A digit of the splitter is not regex whitespace. -/
lemma isJsSpace_of_digit {c : Char} (h : isDigitJS c = true) : isJsSpace c = false := by
  simp only [isDigitJS, decide_eq_true_eq] at h
  simp only [isJsSpace, decide_eq_false_iff_not]
  omega

/-- A digit of the splitter is not a letter of the split class. -/
lemma isSplitLetter_of_digit {c : Char} (h : isDigitJS c = true) :
    isSplitLetter c = false := by
  simp only [isDigitJS, decide_eq_true_eq] at h
  simp only [isSplitLetter, decide_eq_false_iff_not]
  omega

/-! ## Claim theorems -/

/-- Claim C4: the procedure-name splitter splits only on commas followed
(after optional whitespace) by a letter or by a digit run ending in the
ordinal sign, and never inside decimal numbers; the four quoted examples
yield exactly the quoted token lists. -/
theorem c4_comma_splitter :
    splitProcedureNames "Implante,Soroterapia".data =
      ["Implante".data, "Soroterapia".data] ∧
    splitProcedureNames "Im,3º Consulta".data = ["Im".data, "3º Consulta".data] ∧
    splitProcedureNames "Estradiol 12,5Mg".data = ["Estradiol 12,5Mg".data] ∧
    splitProcedureNames "Tirzepatida 40Mg/1,6Ml".data =
      ["Tirzepatida 40Mg/1,6Ml".data] ∧
    (∀ d rest, isDigitJS d = true → ordAfter (d :: rest) = false →
      splitHere (d :: rest) = false) ∧
    (∀ rest c cs, rest.dropWhile isJsSpace = c :: cs → isSplitLetter c = true →
      splitHere rest = true) := by
  refine ⟨by decide, by decide, by decide, by decide, ?_, ?_⟩
  · intro d rest hd hord
    simp only [splitHere, List.dropWhile_cons, isJsSpace_of_digit hd,
      Bool.false_eq_true, if_false, isSplitLetter_of_digit hd, hord,
      Bool.or_self]
  · intro rest c cs hdrop hc
    simp only [splitHere, hdrop, hc, Bool.true_or]

/-- Witness for C4 at the decimal comma of Estradiol 12,5Mg and the letter
comma of Implante,Soroterapia. -/
theorem c4_comma_splitter_witness :
    splitHere ('5' :: "Mg".data) = false ∧ splitHere "Soroterapia".data = true :=
  ⟨c4_comma_splitter.2.2.2.2.1 '5' "Mg".data (by decide) (by decide),
   c4_comma_splitter.2.2.2.2.2 "Soroterapia".data 'S' "oroterapia".data
     (by decide) (by decide)⟩

/-- Claim C2 (code bug): the explicit-discard override (procedure id 20) is
never inserted into the group mapping, so classifyProcedure does not return
the discard with provenance id for it; instead the item falls through to the
name patterns and, for its actual chat name, to the EXTRA fallback.  Ids
that are present in the mapping are classified by id, as the claim states. -/
theorem c2_discard_sentinel_bug :
    buildGroupMapping [⟨3, [16, 20, 22]⟩] =
      [(16, "AVALIACAO".data), (22, "NUTRIS".data)] ∧
    classifyProcedure (some (buildGroupMapping [⟨3, [16, 20, 22]⟩]))
      "Chat / Dúvidas".data (some 20) = ⟨some "O".data, "fallback".data⟩ ∧
    classifyProcedure (some (buildGroupMapping [⟨3, [16, 20, 22]⟩]))
      "1ª Consulta".data (some 16) = ⟨some "D".data, "id".data⟩ := by
  refine ⟨by decide, by decide, by decide⟩

/-- Claim C3: with no id classification, the first matching pattern of the
ordered table decides the category with provenance nome — in particular any
name containing nutricional (the first pattern) goes to the NUTRIS column
even when a later pattern such as consulta also matches — and a name
matching no pattern falls back to the EXTRA column with provenance
fallback. -/
theorem c3_pattern_order :
    (∀ gm name pid, idLookup gm pid = none →
      hasSubL "nutricional".data (lowerStr name) = true →
      classifyProcedure gm name pid = ⟨some "N".data, "nome".data⟩) ∧
    (∀ gm name pid pc, idLookup gm pid = none →
      PROCEDURE_MAPPING.find? (fun e => hasSubL (lowerStr e.1) (lowerStr name)) =
        some pc →
      classifyProcedure gm name pid = ⟨some pc.2, "nome".data⟩) ∧
    (∀ gm name pid, idLookup gm pid = none →
      (∀ pc ∈ PROCEDURE_MAPPING, hasSubL (lowerStr pc.1) (lowerStr name) = false) →
      classifyProcedure gm name pid = ⟨some "O".data, "fallback".data⟩) ∧
    classifyProcedure none "Consulta Nutricional".data none =
      ⟨some "N".data, "nome".data⟩ := by
  have hlow : lowerStr "nutricional".data = "nutricional".data := by decide
  refine ⟨?_, ?_, ?_, by decide⟩
  · intro gm name pid hid hsub
    have hcond : (fun (pc : Str × Str) => hasSubL (lowerStr pc.1) (lowerStr name))
        ("nutricional".data, "N".data) = true := by
      show hasSubL (lowerStr "nutricional".data) (lowerStr name) = true
      rw [hlow]; exact hsub
    have hfind : List.find? (fun pc => hasSubL (lowerStr pc.1) (lowerStr name))
        PROCEDURE_MAPPING = some ("nutricional".data, "N".data) :=
      List.find?_cons_of_pos _ hcond
    simp only [classifyProcedure, hid, classifyByName, hfind]
  · intro gm name pid pc hid hfind
    simp only [classifyProcedure, hid, classifyByName, hfind]
  · intro gm name pid hid hnone
    have : PROCEDURE_MAPPING.find?
        (fun e => hasSubL (lowerStr e.1) (lowerStr name)) = none := by
      rw [List.find?_eq_none]
      intro pc hpc
      simp [hnone pc hpc]
    simp only [classifyProcedure, hid, classifyByName, this]

/-- Witness for C3 at the claim's own example name. -/
theorem c3_pattern_order_witness :
    classifyProcedure none "Consulta Nutricional".data none =
      ⟨some "N".data, "nome".data⟩ ∧
    classifyProcedure none "Raio X".data (some 999) =
      ⟨some "O".data, "fallback".data⟩ :=
  ⟨c3_pattern_order.1 none "Consulta Nutricional".data none (by decide) (by decide),
   c3_pattern_order.2.2.1 none "Raio X".data (some 999) (by decide) (by decide)⟩

/-- Invariant preservation along List.foldl. -/
lemma foldl_preserve {α β : Type} (f : β → α → β) (P : β → Prop) :
    ∀ (l : List α) (b : β), P b → (∀ b0 a, a ∈ l → P b0 → P (f b0 a)) →
    P (l.foldl f b)
  | [], b, hb, _ => hb
  | x :: xs, b, hb, hf =>
    foldl_preserve f P xs (f b x) (hf b x (by simp) hb)
      (fun b0 a ha hb0 => hf b0 a (by simp [ha]) hb0)

/-- Membership after Map.set: an element of the updated map is an old
element or the new binding. -/
lemma mapSet_mem {m : List (Nat × Str)} {k : Nat} {v : Str} {x : Nat × Str}
    (h : x ∈ mapSet m k v) : x ∈ m ∨ x = (k, v) := by
  unfold mapSet at h
  split at h
  · obtain ⟨e, he, hfe⟩ := List.mem_map.mp h
    by_cases hek : e.1 = k
    · right
      rw [← hfe]
      simp [hek]
    · left
      rw [← hfe]
      simpa [hek] using he
  · rcases List.mem_append.mp h with h1 | h1
    · exact Or.inl h1
    · exact Or.inr (by simpa using h1)

/-- Every binding of the constructed group mapping has a key with a non-null
override or no override at all (never the discard id 20), and a value that
is one of the concrete column names of the static tables. -/
lemma buildGroupMapping_entries (groups : List ApiGroup) :
    ∀ x ∈ buildGroupMapping groups, x.1 ≠ 20 ∧
      columnName (colOfName x.2) ≠ "DESCARTADO".data := by
  unfold buildGroupMapping
  refine foldl_preserve _ (fun (m : List (Nat × Str)) => ∀ x ∈ m, x.1 ≠ 20 ∧
    columnName (colOfName x.2) ≠ "DESCARTADO".data) groups [] (by simp) ?_
  intro m g _ hm
  refine foldl_preserve _ (fun (m2 : List (Nat × Str)) => ∀ x ∈ m2, x.1 ≠ 20 ∧
    columnName (colOfName x.2) ≠ "DESCARTADO".data) g.procedimentos m hm ?_
  intro m2 pid _ hm2 x hx
  have h20 : OVERRIDES.find? (fun e => e.1 = 20) = some (20, none) := by decide
  rcases hov : OVERRIDES.find? (fun e => e.1 = pid) with _ | ov
  · -- no override: the group default column, if any, is inserted
    have hpid : pid ≠ 20 := by
      intro hp
      rw [hp, h20] at hov
      exact Option.noConfusion hov
    simp only [hov] at hx
    rcases hg : GROUP_TO_COLUMN.find? (fun q => q.1 = g.id) with _ | e
    · simp only [hg, Option.map_none] at hx
      exact hm2 x hx
    · simp only [hg, Option.map_some] at hx
      rcases mapSet_mem hx with h1 | h1
      · exact hm2 x h1
      · have hmem := List.mem_of_find?_eq_some hg
        have hgood : ∀ q ∈ GROUP_TO_COLUMN,
            columnName (colOfName q.2) ≠ "DESCARTADO".data := by decide
        rw [h1]
        exact ⟨hpid, hgood e hmem⟩
  · simp only [hov] at hx
    have hovmem := List.mem_of_find?_eq_some hov
    rcases hov2 : ov.2 with _ | col
    · simp only [hov2] at hx
      exact hm2 x hx
    · simp only [hov2] at hx
      have hpid : pid ≠ 20 := by
        intro hp
        rw [hp, h20] at hov
        have hove : ov = ((20 : Nat), (none : Option Str)) :=
          (Option.some.inj hov).symm
        rw [hove] at hov2
        exact Option.noConfusion hov2
      rcases mapSet_mem hx with h1 | h1
      · exact hm2 x h1
      · have hgood : ∀ o ∈ OVERRIDES, ∀ c, o.2 = some c →
            columnName (colOfName c) ≠ "DESCARTADO".data := by decide
        rw [h1]
        exact ⟨hpid, hgood ov hovmem col hov2⟩

/-- The classifier always produces a column: every branch returns some. -/
lemma classifyProcedure_column_isSome (gm : Option (List (Nat × Str)))
    (name : Str) (pid : Option Nat) :
    (classifyProcedure gm name pid).column ≠ none := by
  simp only [classifyProcedure, classifyByName]
  rcases hlook : idLookup gm pid with _ | col
  · simp only [hlook]
    rcases hfind : PROCEDURE_MAPPING.find?
      (fun pc => hasSubL (lowerStr pc.1) (lowerStr name)) with _ | pc <;>
      simp [hfind]
  · simp [hlook]

/-- Under the real group mapping the classifier's column never renders as
DESCARTADO: id hits give a mapped name's column, name hits give a pattern
column, and the fallback gives EXTRA. -/
lemma classifyProcedure_column_good (groups : List ApiGroup)
    (gmo : Option (List (Nat × Str)))
    (hgm : gmo = none ∨ gmo = some (buildGroupMapping groups))
    (name : Str) (pid : Option Nat) :
    ∃ c, (classifyProcedure gmo name pid).column = some c ∧
      columnName c ≠ "DESCARTADO".data := by
  simp only [classifyProcedure, classifyByName]
  rcases hlook : idLookup gmo pid with _ | col
  · simp only [hlook]
    rcases hfind : PROCEDURE_MAPPING.find?
      (fun pc => hasSubL (lowerStr pc.1) (lowerStr name)) with _ | pc
    · simp only [hfind]
      exact ⟨"O".data, rfl, by decide⟩
    · simp only [hfind]
      refine ⟨pc.2, rfl, ?_⟩
      have hmem := List.mem_of_find?_eq_some hfind
      have hgood : ∀ q ∈ PROCEDURE_MAPPING,
          columnName q.2 ≠ "DESCARTADO".data := by decide
      exact hgood pc hmem
  · simp only [hlook]
    refine ⟨col, rfl, ?_⟩
    rcases pid with _ | p
    · simp [idLookup] at hlook
    · rcases hgm with hgm | hgm
      · rw [hgm] at hlook
        simp [idLookup] at hlook
      · rw [hgm] at hlook
        by_cases hp : p ≠ 0
        · simp only [idLookup, if_pos hp] at hlook
          rcases hfind : (buildGroupMapping groups).find? (fun e => e.1 = p)
            with _ | e
          · simp [hfind] at hlook
          · simp only [hfind, Option.map_some] at hlook
            have hmem := List.mem_of_find?_eq_some hfind
            have hq := (buildGroupMapping_entries groups e hmem).2
            have hcol : colOfName e.2 = col := Option.some.inj hlook
            rw [← hcol]
            exact hq
        · simp [idLookup, hp] at hlook

/-- One buildRow iteration only appends detail entries, and never appends a
DESCARTADO entry when the group mapping is the real one (or none). -/
lemma stepItem_details_good (env : Env) (groups : List ApiGroup)
    (gmo : Option (List (Nat × Str)))
    (hgm : gmo = none ∨ gmo = some (buildGroupMapping groups))
    (pid : Nat) (rd : Str) (acc : ItemsAcc) (item : DItem) :
    ∀ d ∈ (stepItem env gmo pid rd acc item).details,
      d ∈ acc.details ∨ d.colunaDestinoNome ≠ "DESCARTADO".data := by
  intro d hd
  obtain ⟨c, hc, hgood⟩ := classifyProcedure_column_good groups gmo hgm
    item.nome item.procedimento_id
  unfold stepItem at hd
  simp only [hc] at hd
  by_cases hcd : c = "D".data
  · rw [if_pos hcd] at hd
    split at hd
    · rcases List.mem_append.mp hd with h1 | h1
      · exact Or.inl h1
      · right
        have : d = normalDetail item c
            (classifyProcedure gmo item.nome item.procedimento_id).classificadoPor := by
          simpa using h1
        rw [this]
        exact hgood
    · split at hd
      · rcases List.mem_append.mp hd with h1 | h1
        · exact Or.inl h1
        · right
          have hdm := List.mem_singleton.mp h1
          rw [hdm]
          simp
      · rcases List.mem_append.mp hd with h1 | h1
        · exact Or.inl h1
        · right
          have : d = normalDetail item c
              (classifyProcedure gmo item.nome item.procedimento_id).classificadoPor := by
            simpa using h1
          rw [this]
          exact hgood
  · rw [if_neg hcd] at hd
    rcases List.mem_append.mp hd with h1 | h1
    · exact Or.inl h1
    · right
      have : d = normalDetail item c
          (classifyProcedure gmo item.nome item.procedimento_id).classificadoPor := by
        simpa using h1
      rw [this]
      exact hgood

/-- Claim C10: the classifier is total — its column is never null, because
ids with the discard override are never inserted into the group mapping and
every name pattern and the fallback give a concrete column — and therefore
the DESCARTADO branch of the buildRow loop is unreachable for every item. -/
theorem c10_no_discard_branch :
    (∀ gm name pid, (classifyProcedure gm name pid).column ≠ none) ∧
    (∀ groups c, ((20 : Nat), c) ∉ buildGroupMapping groups) ∧
    (∀ env groups gmo, (gmo = none ∨ gmo = some (buildGroupMapping groups)) →
      ∀ pid rd cache items d,
        d ∈ (processItems env gmo pid rd ⟨[], 0, [], cache⟩ items).details →
        d.colunaDestinoNome ≠ "DESCARTADO".data) := by
  refine ⟨classifyProcedure_column_isSome, ?_, ?_⟩
  · intro groups c hmem
    exact (buildGroupMapping_entries groups _ hmem).1 rfl
  · intro env groups gmo hgm pid rd cache items d hd
    revert d hd
    unfold processItems
    refine foldl_preserve _ (fun (a : ItemsAcc) => ∀ d ∈ a.details,
      d.colunaDestinoNome ≠ "DESCARTADO".data) items ⟨[], 0, [], cache⟩
      (by simp) ?_
    intro a0 item _ ha0 d hd
    rcases stepItem_details_good env groups gmo hgm pid rd a0 item d hd with h | h
    · exact ha0 d h
    · exact h

/-- Witness for C10 at a concrete mapping, item list and discard-override
id. -/
theorem c10_no_discard_branch_witness :
    (classifyProcedure none "Chat".data (some 20)).column ≠ none ∧
    ((20 : Nat), "O".data) ∉ buildGroupMapping [⟨3, [16, 20, 22]⟩] ∧
    ∀ d ∈ (processItems ⟨fun _ => none, fun _ _ => [], fun _ _ => [],
        fun _ => none, fun _ _ => ⟨[], false⟩⟩
        (some (buildGroupMapping [⟨3, [16, 20, 22]⟩])) 7 "05/02/2026".data
        ⟨[], 0, [], []⟩
        [⟨some 20, "Chat".data, 100, 1, 0, 0⟩]).details,
      d.colunaDestinoNome ≠ "DESCARTADO".data :=
  ⟨c10_no_discard_branch.1 none "Chat".data (some 20),
   c10_no_discard_branch.2.1 [⟨3, [16, 20, 22]⟩] "O".data,
   fun d hd => c10_no_discard_branch.2.2
     ⟨fun _ => none, fun _ _ => [], fun _ _ => [], fun _ => none,
      fun _ _ => ⟨[], false⟩⟩
     [⟨3, [16, 20, 22]⟩] (some (buildGroupMapping [⟨3, [16, 20, 22]⟩]))
     (Or.inr rfl) 7 "05/02/2026".data []
     [⟨some 20, "Chat".data, 100, 1, 0, 0⟩] d hd⟩

/-- Claim C8: for an item classified into the evaluation column, an upstream
appointment-check failure leaves the item accumulated in the evaluation
column as usual, while a successful check reporting no appointment on the
processing date diverts the item to the SINAL_ANTECIPADO marker, leaves the
evaluation column untouched, and takes the item's discount back out of the
running discount total. -/
theorem c8_evaluation_appointment_check (env : Env)
    (gm : Option (List (Nat × Str))) (pid : Nat) (rd : Str) (acc : ItemsAcc)
    (item : DItem)
    (hcol : (classifyProcedure gm item.nome item.procedimento_id).column =
      some "D".data) :
    ((checkAppointmentDateM env acc.cache pid rd).1.apiError = true →
      processItems env gm pid rd acc [item] =
        ⟨addVal acc.procVals "D".data (formatValue item.valor),
         (if 0 < item.desconto then
            acc.discountTotal + item.desconto * (qtyOr1 item.quantidade : Nat)
          else acc.discountTotal),
         acc.details ++ [normalDetail item "D".data
           (classifyProcedure gm item.nome item.procedimento_id).classificadoPor],
         (checkAppointmentDateM env acc.cache pid rd).2⟩) ∧
    ((checkAppointmentDateM env acc.cache pid rd).1.apiError = false →
      (checkAppointmentDateM env acc.cache pid rd).1.hasAppointmentToday = false →
      processItems env gm pid rd acc [item] =
        ⟨acc.procVals, acc.discountTotal,
         acc.details ++
           [⟨item.procedimento_id, item.nome, formatValue item.valor,
             qtyOr1 item.quantidade, item.desconto, none,
             "SINAL_ANTECIPADO".data, "agendamento-futuro".data⟩],
         (checkAppointmentDateM env acc.cache pid rd).2⟩) := by
  have hstep : processItems env gm pid rd acc [item] =
      stepItem env gm pid rd acc item := rfl
  constructor
  · intro herr
    rw [hstep]
    unfold stepItem
    simp only [hcol, herr, if_pos rfl, if_true]
  · intro herr hnot
    rw [hstep]
    unfold stepItem
    simp only [hcol, herr, hnot, if_pos rfl, Bool.false_eq_true, if_false,
      Bool.not_false, if_true]
    by_cases hdx : 0 < item.desconto
    · simp only [hdx, if_true]
      congr 1
      ring
    · simp only [hdx, if_false]

/-- Environment whose appointment search always fails upstream. -/
def c8EnvErr : Env :=
  ⟨fun _ => none, fun _ _ => [], fun _ _ => [], fun _ => none,
   fun _ _ => ⟨[], true⟩⟩

/-- Environment whose appointment search succeeds but only finds an
appointment on the following day. -/
def c8EnvMiss : Env :=
  ⟨fun _ => none, fun _ _ => [], fun _ _ => [], fun _ => none,
   fun _ _ => ⟨[⟨"06-02-2026".data, false, []⟩], false⟩⟩

/-- An evaluation item with a discount, as in scenario D. -/
def c8Item : DItem := ⟨none, "Avaliação Inicial".data, 500, 1, 50, 0⟩

/-- Witness for C8: both branches applied at a concrete evaluation item. -/
theorem c8_evaluation_appointment_check_witness :
    (processItems c8EnvErr none 7 "05/02/2026".data ⟨[], 0, [], []⟩ [c8Item] =
      ⟨addVal ([] : List (Str × Rat)) "D".data (formatValue c8Item.valor),
       (if 0 < c8Item.desconto then
          (0 : Rat) + c8Item.desconto * (qtyOr1 c8Item.quantidade : Nat)
        else 0),
       [] ++ [normalDetail c8Item "D".data
         (classifyProcedure none c8Item.nome c8Item.procedimento_id).classificadoPor],
       (checkAppointmentDateM c8EnvErr [] 7 "05/02/2026".data).2⟩) ∧
    (processItems c8EnvMiss none 7 "05/02/2026".data ⟨[], 0, [], []⟩ [c8Item] =
      ⟨[], 0,
       [] ++ [⟨c8Item.procedimento_id, c8Item.nome, formatValue c8Item.valor,
         qtyOr1 c8Item.quantidade, c8Item.desconto, none,
         "SINAL_ANTECIPADO".data, "agendamento-futuro".data⟩],
       (checkAppointmentDateM c8EnvMiss [] 7 "05/02/2026".data).2⟩) :=
  ⟨(c8_evaluation_appointment_check c8EnvErr none 7 "05/02/2026".data
      ⟨[], 0, [], []⟩ c8Item (by decide)).1 (by decide),
   (c8_evaluation_appointment_check c8EnvMiss none 7 "05/02/2026".data
      ⟨[], 0, [], []⟩ c8Item (by decide)).2 (by decide) (by decide)⟩

/-- Inserting never yields the empty list. -/
lemma insertByDelta_ne_nil (t : Rat) (p : Proposal) (l : List Proposal) :
    insertByDelta t p l ≠ [] := by
  cases l with
  | nil => simp [insertByDelta]
  | cons q qs =>
    unfold insertByDelta
    split <;> simp

/-- The head of the delta sort is a proposal of the list whose delta is
minimal. -/
lemma sortByDelta_head_min (t : Rat) :
    ∀ (l : List Proposal) (mp : Proposal),
      (sortByDelta t l).head? = some mp →
      mp ∈ l ∧ ∀ q ∈ l, absDelta t mp ≤ absDelta t q := by
  intro l
  induction l with
  | nil => intro mp h; simp [sortByDelta] at h
  | cons p ps ih =>
    intro mp h
    rw [show sortByDelta t (p :: ps) = insertByDelta t p (sortByDelta t ps)
      from rfl] at h
    rcases hs : sortByDelta t ps with _ | ⟨m, rest⟩
    · have hps : ps = [] := by
        cases ps with
        | nil => rfl
        | cons a as =>
          exact absurd hs (by
            rw [show sortByDelta t (a :: as) = insertByDelta t a (sortByDelta t as)
              from rfl]
            exact insertByDelta_ne_nil t a (sortByDelta t as))
      rw [hs] at h
      simp only [insertByDelta, List.head?_cons, Option.some.injEq] at h
      subst h
      subst hps
      exact ⟨by simp, by simp⟩
    · rw [hs] at h
      have hm := ih m (by rw [hs]; rfl)
      by_cases hle : absDelta t p ≤ absDelta t m
      · rw [show insertByDelta t p (m :: rest) = p :: m :: rest by
          unfold insertByDelta; rw [if_pos hle]] at h
        simp only [List.head?_cons, Option.some.injEq] at h
        subst h
        refine ⟨by simp, ?_⟩
        intro q hq
        rcases List.mem_cons.mp hq with hq | hq
        · rw [hq]
        · exact le_trans hle (hm.2 q hq)
      · rw [show insertByDelta t p (m :: rest) =
            m :: insertByDelta t p rest by
          unfold insertByDelta
          rw [if_neg hle]
          cases rest <;> rfl] at h
        simp only [List.head?_cons, Option.some.injEq] at h
        subst h
        refine ⟨List.mem_cons_of_mem p hm.1, ?_⟩
        intro q hq
        rcases List.mem_cons.mp hq with hq | hq
        · rw [hq]
          exact le_of_not_le hle
        · exact hm.2 q hq

/-- On a single-procedure transaction with a truthy procedure id, the
matcher reduces to the candidate-filter logic. -/
lemma findMatchingProposal_single (env : Env) (t : Transaction)
    (ps : List Proposal)
    (hSingle : (reportNamesOf t.NomeProcedimento).length ≤ 1)
    (hPid : natTruthy t.ProcedimentoID = true) :
    findMatchingProposal env t ps =
      (if (singleMatchCandidates t ps).length = 1 then
        (singleMatchCandidates t ps).head?
      else if 1 < (singleMatchCandidates t ps).length then
        (sortByDelta t.Value (singleMatchCandidates t ps)).head?
      else none) := by
  unfold findMatchingProposal
  have hm : decide (1 < (reportNamesOf t.NomeProcedimento).length) = false := by
    simp only [decide_eq_false_iff_not]
    omega
  by_cases hps : ps.isEmpty
  · have hnil : ps = [] := List.isEmpty_iff.mp hps
    subst hnil
    simp [singleMatchCandidates]
  · simp only [hps, Bool.false_eq_true, if_false, hm, Bool.not_false, hPid,
      Bool.and_self, if_true]

/-- Claim C6: in the single-procedure case the matcher returns null when no
available proposal contains the transaction's procedure id; when it returns
a proposal, that proposal is a candidate whose total has minimal absolute
distance to the transaction value; and in scenario B (totals 320 and 300
against value 305) the proposal of total 300 is chosen. -/
theorem c6_single_closest_value :
    (∀ env t ps, (reportNamesOf t.NomeProcedimento).length ≤ 1 →
      natTruthy t.ProcedimentoID = true →
      (singleMatchCandidates t ps = [] → findMatchingProposal env t ps = none) ∧
      (∀ mp, findMatchingProposal env t ps = some mp →
        mp ∈ singleMatchCandidates t ps ∧
        ∀ q ∈ singleMatchCandidates t ps,
          absDelta t.Value mp ≤ absDelta t.Value q)) ∧
    findMatchingProposal
      ⟨fun _ => none, fun _ _ => [], fun _ _ => [], fun _ => none,
       fun _ _ => ⟨[], false⟩⟩
      ⟨some 1, "B".data, ⟨5, 2, 2026⟩, 305, "Consulta".data, some 58, none, 0⟩
      [⟨101, "Executada".data, 320, [⟨58, "T".data, 320, 1, 0, 0⟩]⟩,
       ⟨102, "Executada".data, 300, [⟨58, "T".data, 300, 1, 0, 0⟩]⟩] =
      some ⟨102, "Executada".data, 300, [⟨58, "T".data, 300, 1, 0, 0⟩]⟩ := by
  refine ⟨?_, by decide⟩
  intro env t ps hSingle hPid
  rw [findMatchingProposal_single env t ps hSingle hPid]
  constructor
  · intro hc
    simp [hc]
  · intro mp h
    by_cases h1 : (singleMatchCandidates t ps).length = 1
    · obtain ⟨c, hc⟩ := List.length_eq_one.mp h1
      rw [if_pos h1, hc] at h
      have hcm : c = mp := by simpa using h
      subst hcm
      refine ⟨by rw [hc]; simp, ?_⟩
      intro q hq
      rw [hc] at hq
      rw [List.mem_singleton.mp hq]
    · by_cases h2 : 1 < (singleMatchCandidates t ps).length
      · rw [if_neg h1, if_pos h2] at h
        exact sortByDelta_head_min t.Value (singleMatchCandidates t ps) mp h
      · rw [if_neg h1, if_neg h2] at h
        exact absurd h (by simp)

/-- Concrete environment for the C6 witness. -/
def c6Env : Env :=
  ⟨fun _ => none, fun _ _ => [], fun _ _ => [], fun _ => none,
   fun _ _ => ⟨[], false⟩⟩

/-- Scenario B transaction: single procedure 58, value 305. -/
def c6T : Transaction :=
  ⟨some 1, "B".data, ⟨5, 2, 2026⟩, 305, "Consulta".data, some 58, none, 0⟩

/-- Scenario B proposal of total 300. -/
def c6P300 : Proposal := ⟨102, "Executada".data, 300, [⟨58, "T".data, 300, 1, 0, 0⟩]⟩

/-- Scenario B proposal of total 320. -/
def c6P320 : Proposal := ⟨101, "Executada".data, 320, [⟨58, "T".data, 320, 1, 0, 0⟩]⟩

/-- A proposal without procedure 58. -/
def c6POther : Proposal := ⟨103, "Executada".data, 300, [⟨99, "X".data, 300, 1, 0, 0⟩]⟩

/-- Witness for C6: no candidate yields null; the scenario B list yields the
closest-total candidate. -/
theorem c6_single_closest_value_witness :
    findMatchingProposal c6Env c6T [c6POther] = none ∧
    (c6P300 ∈ singleMatchCandidates c6T [c6P320, c6P300] ∧
      ∀ q ∈ singleMatchCandidates c6T [c6P320, c6P300],
        absDelta c6T.Value c6P300 ≤ absDelta c6T.Value q) :=
  ⟨(c6_single_closest_value.1 c6Env c6T [c6POther] (by decide) (by decide)).1
     (by decide),
   (c6_single_closest_value.1 c6Env c6T [c6P320, c6P300] (by decide)
     (by decide)).2 c6P300 (by decide)⟩

/-- The best-overlap fold yields its initial value or the overlap data of
some list element, never decreases the running count, and dominates the
overlap count of every element. -/
lemma bestStep_foldl (invIds : List Nat) :
    ∀ (l : List Proposal) (acc : Option Proposal × Nat),
      (l.foldl (bestStep invIds) acc = acc ∨
        ∃ p ∈ l, (l.foldl (bestStep invIds) acc).1 = some p ∧
          (l.foldl (bestStep invIds) acc).2 = overlapCount invIds p) ∧
      acc.2 ≤ (l.foldl (bestStep invIds) acc).2 ∧
      ∀ q ∈ l, overlapCount invIds q ≤ (l.foldl (bestStep invIds) acc).2 := by
  intro l
  induction l with
  | nil => exact fun acc => ⟨Or.inl rfl, le_refl _, by simp⟩
  | cons p ps ih =>
    intro acc
    have hfold : (p :: ps).foldl (bestStep invIds) acc =
        ps.foldl (bestStep invIds) (bestStep invIds acc p) := rfl
    obtain ⟨hA, hB, hC⟩ := ih (bestStep invIds acc p)
    rw [hfold]
    refine ⟨?_, ?_, ?_⟩
    · rcases hA with hA | ⟨q, hq, h1, h2⟩
      · rw [hA]
        by_cases hlt : acc.2 < overlapCount invIds p
        · right
          exact ⟨p, by simp, by simp [bestStep, hlt], by simp [bestStep, hlt]⟩
        · left
          simp [bestStep, hlt]
      · right
        exact ⟨q, List.mem_cons_of_mem p hq, h1, h2⟩
    · refine le_trans ?_ hB
      by_cases hlt : acc.2 < overlapCount invIds p
      · simp only [bestStep, if_pos hlt]
        exact le_of_lt hlt
      · simp [bestStep, hlt]
    · intro q hq
      rcases List.mem_cons.mp hq with hq | hq
      · subst hq
        refine le_trans ?_ hB
        by_cases hlt : acc.2 < overlapCount invIds q
        · simp [bestStep, hlt]
        · simp only [bestStep, if_neg hlt]
          omega
      · exact hC q hq

/-- On a multi-procedure transaction the matcher reduces to the
invoice-overlap logic. -/
lemma findMatchingProposal_multi_eq (env : Env) (t : Transaction)
    (ps : List Proposal)
    (hMulti : 1 < (reportNamesOf t.NomeProcedimento).length)
    (hps : ps ≠ []) :
    findMatchingProposal env t ps =
      (if natTruthy t.NumeroInvoice then
        (if !(env.invoiceItems (t.NumeroInvoice.getD 0) t.Data).isEmpty then
          (if 2 ≤ (bestOverlap ((env.invoiceItems (t.NumeroInvoice.getD 0)
                t.Data).map (fun i => i.procedimento_id)) ps).2 then
            (bestOverlap ((env.invoiceItems (t.NumeroInvoice.getD 0)
              t.Data).map (fun i => i.procedimento_id)) ps).1
           else none)
         else none)
       else none) := by
  unfold findMatchingProposal
  have hm : decide (1 < (reportNamesOf t.NomeProcedimento).length) = true := by
    simpa using hMulti
  have hpse : ps.isEmpty = false := by
    cases hE : ps.isEmpty
    · rfl
    · exact absurd (List.isEmpty_iff.mp hE) hps
  simp only [hpse, Bool.false_eq_true, if_false, hm, Bool.not_true,
    Bool.false_and, Bool.true_and]

/-- Claim C7: a multi-procedure transaction matches only through its invoice
— no invoice id or no invoice items give null — and an accepted proposal is
one of the available proposals attaining the maximal invoice-overlap count,
that count being at least 2; when every available proposal overlaps in
fewer than 2 ids the matcher returns null. -/
theorem c7_multi_invoice_overlap (env : Env) (t : Transaction)
    (ps : List Proposal)
    (hMulti : 1 < (reportNamesOf t.NomeProcedimento).length) :
    (natTruthy t.NumeroInvoice = false → findMatchingProposal env t ps = none) ∧
    (env.invoiceItems (t.NumeroInvoice.getD 0) t.Data = [] →
      findMatchingProposal env t ps = none) ∧
    (∀ mp, findMatchingProposal env t ps = some mp →
      mp ∈ ps ∧
      2 ≤ overlapCount ((env.invoiceItems (t.NumeroInvoice.getD 0) t.Data).map
        (fun i => i.procedimento_id)) mp ∧
      ∀ q ∈ ps,
        overlapCount ((env.invoiceItems (t.NumeroInvoice.getD 0) t.Data).map
          (fun i => i.procedimento_id)) q ≤
        overlapCount ((env.invoiceItems (t.NumeroInvoice.getD 0) t.Data).map
          (fun i => i.procedimento_id)) mp) ∧
    ((∀ q ∈ ps,
        overlapCount ((env.invoiceItems (t.NumeroInvoice.getD 0) t.Data).map
          (fun i => i.procedimento_id)) q < 2) →
      findMatchingProposal env t ps = none) := by
  by_cases hps : ps = []
  · subst hps
    refine ⟨fun _ => by simp [findMatchingProposal],
      fun _ => by simp [findMatchingProposal], ?_,
      fun _ => by simp [findMatchingProposal]⟩
    intro mp h
    simp [findMatchingProposal] at h
  · rw [findMatchingProposal_multi_eq env t ps hMulti hps]
    refine ⟨?_, ?_, ?_, ?_⟩
    · intro hInv
      rw [hInv]
      simp
    · intro hEmpty
      rw [hEmpty]
      simp
    · intro mp h
      by_cases hInv : natTruthy t.NumeroInvoice
      · rw [if_pos hInv] at h
        by_cases hne : !(env.invoiceItems (t.NumeroInvoice.getD 0)
            t.Data).isEmpty
        · rw [if_pos hne] at h
          by_cases hguard : 2 ≤ (bestOverlap
              ((env.invoiceItems (t.NumeroInvoice.getD 0) t.Data).map
                (fun i => i.procedimento_id)) ps).2
          · rw [if_pos hguard] at h
            obtain ⟨hA, _, hC⟩ := bestStep_foldl
              ((env.invoiceItems (t.NumeroInvoice.getD 0) t.Data).map
                (fun i => i.procedimento_id)) ps (none, 0)
            rcases hA with hA | ⟨p, hpmem, h1, h2⟩
            · rw [show bestOverlap ((env.invoiceItems (t.NumeroInvoice.getD 0)
                  t.Data).map (fun i => i.procedimento_id)) ps =
                  ps.foldl (bestStep _) (none, 0) from rfl, hA] at h
              exact absurd h (by simp)
            · have hmp : p = mp := by
                have := h1
                rw [show ps.foldl (bestStep _) (none, 0) = bestOverlap
                    ((env.invoiceItems (t.NumeroInvoice.getD 0) t.Data).map
                      (fun i => i.procedimento_id)) ps from rfl] at this
                rw [this] at h
                exact Option.some.inj h
              subst hmp
              refine ⟨hpmem, ?_, ?_⟩
              · rw [← h2]
                exact hguard
              · intro q hq
                rw [← h2]
                exact hC q hq
          · rw [if_neg hguard] at h
            exact absurd h (by simp)
        · rw [if_neg hne] at h
          exact absurd h (by simp)
      · rw [if_neg hInv] at h
        exact absurd h (by simp)
    · intro hsmall
      by_cases hInv : natTruthy t.NumeroInvoice
      · rw [if_pos hInv]
        by_cases hne : !(env.invoiceItems (t.NumeroInvoice.getD 0)
            t.Data).isEmpty
        · rw [if_pos hne]
          obtain ⟨hA, _, _⟩ := bestStep_foldl
            ((env.invoiceItems (t.NumeroInvoice.getD 0) t.Data).map
              (fun i => i.procedimento_id)) ps (none, 0)
          have hlt : (bestOverlap ((env.invoiceItems (t.NumeroInvoice.getD 0)
              t.Data).map (fun i => i.procedimento_id)) ps).2 < 2 := by
            rcases hA with hA | ⟨p, hpmem, _, h2⟩
            · rw [show bestOverlap ((env.invoiceItems (t.NumeroInvoice.getD 0)
                  t.Data).map (fun i => i.procedimento_id)) ps =
                  ps.foldl (bestStep _) (none, 0) from rfl, hA]
              omega
            · rw [show bestOverlap ((env.invoiceItems (t.NumeroInvoice.getD 0)
                  t.Data).map (fun i => i.procedimento_id)) ps =
                  ps.foldl (bestStep _) (none, 0) from rfl, h2]
              exact hsmall p hpmem
          rw [if_neg (by omega)]
        · rw [if_neg hne]
      · rw [if_neg hInv]

/-- Environment for the C7 witness: invoice 500 has items 58 and 60. -/
def c7Env : Env :=
  ⟨fun _ => none, fun _ _ => [],
   fun inv _ => if inv = 500 then [⟨58, 10000, 1, 0⟩, ⟨60, 20000, 1, 0⟩] else [],
   fun _ => none, fun _ _ => ⟨[], false⟩⟩

/-- A multi-procedure transaction backed by invoice 500. -/
def c7T : Transaction :=
  ⟨some 1, "M".data, ⟨5, 2, 2026⟩, 300, "Implante,Soroterapia".data, none,
   some 500, 0⟩

/-- A proposal overlapping the invoice in both ids. -/
def c7PA : Proposal :=
  ⟨201, "Executada".data, 300,
   [⟨58, "A".data, 100, 1, 0, 0⟩, ⟨60, "B".data, 200, 1, 0, 0⟩]⟩

/-- A proposal overlapping the invoice in one id only. -/
def c7PB : Proposal := ⟨202, "Executada".data, 100, [⟨58, "A".data, 100, 1, 0, 0⟩]⟩

/-- Witness for C7: the two-id-overlap proposal is accepted and maximal; a
pool overlapping in a single id yields null. -/
theorem c7_multi_invoice_overlap_witness :
    (c7PA ∈ [c7PB, c7PA] ∧
      2 ≤ overlapCount ((c7Env.invoiceItems (c7T.NumeroInvoice.getD 0)
        c7T.Data).map (fun i => i.procedimento_id)) c7PA ∧
      ∀ q ∈ [c7PB, c7PA],
        overlapCount ((c7Env.invoiceItems (c7T.NumeroInvoice.getD 0)
          c7T.Data).map (fun i => i.procedimento_id)) q ≤
        overlapCount ((c7Env.invoiceItems (c7T.NumeroInvoice.getD 0)
          c7T.Data).map (fun i => i.procedimento_id)) c7PA) ∧
    findMatchingProposal c7Env c7T [c7PB] = none :=
  ⟨(c7_multi_invoice_overlap c7Env c7T [c7PB, c7PA] (by decide)).2.2.1 c7PA
     (by decide),
   (c7_multi_invoice_overlap c7Env c7T [c7PB] (by decide)).2.2.2 (by decide)⟩

/-- A single-procedure transaction with a falsy procedure id never matches. -/
lemma findMatchingProposal_untruthy (env : Env) (t : Transaction)
    (ps : List Proposal)
    (hSingle : (reportNamesOf t.NomeProcedimento).length ≤ 1)
    (hPid : natTruthy t.ProcedimentoID = false) :
    findMatchingProposal env t ps = none := by
  unfold findMatchingProposal
  have hm : decide (1 < (reportNamesOf t.NomeProcedimento).length) = false := by
    simp only [decide_eq_false_iff_not]
    omega
  by_cases hps : ps.isEmpty
  · simp [hps]
  · simp [hps, hm, hPid]

/-- A matched proposal always comes from the supplied pool. -/
lemma findMatchingProposal_mem (env : Env) (t : Transaction)
    (ps : List Proposal) (mp : Proposal)
    (h : findMatchingProposal env t ps = some mp) : mp ∈ ps := by
  by_cases hMulti : 1 < (reportNamesOf t.NomeProcedimento).length
  · by_cases hps : ps = []
    · subst hps
      simp [findMatchingProposal] at h
    · rw [findMatchingProposal_multi_eq env t ps hMulti hps] at h
      by_cases hInv : natTruthy t.NumeroInvoice
      · rw [if_pos hInv] at h
        by_cases hne : !(env.invoiceItems (t.NumeroInvoice.getD 0)
            t.Data).isEmpty
        · rw [if_pos hne] at h
          by_cases hguard : 2 ≤ (bestOverlap
              ((env.invoiceItems (t.NumeroInvoice.getD 0) t.Data).map
                (fun i => i.procedimento_id)) ps).2
          · rw [if_pos hguard] at h
            obtain ⟨hA, _, _⟩ := bestStep_foldl
              ((env.invoiceItems (t.NumeroInvoice.getD 0) t.Data).map
                (fun i => i.procedimento_id)) ps (none, 0)
            rcases hA with hA | ⟨p, hpmem, h1, _⟩
            · rw [show bestOverlap ((env.invoiceItems (t.NumeroInvoice.getD 0)
                  t.Data).map (fun i => i.procedimento_id)) ps =
                  ps.foldl (bestStep _) (none, 0) from rfl, hA] at h
              exact absurd h (by simp)
            · rw [show bestOverlap ((env.invoiceItems (t.NumeroInvoice.getD 0)
                  t.Data).map (fun i => i.procedimento_id)) ps =
                  ps.foldl (bestStep _) (none, 0) from rfl, h1] at h
              rw [← Option.some.inj h]
              exact hpmem
          · rw [if_neg hguard] at h
            exact absurd h (by simp)
        · rw [if_neg hne] at h
          exact absurd h (by simp)
      · rw [if_neg hInv] at h
        exact absurd h (by simp)
  · have hSingle : (reportNamesOf t.NomeProcedimento).length ≤ 1 := by omega
    by_cases hPid : natTruthy t.ProcedimentoID
    · rw [findMatchingProposal_single env t ps hSingle hPid] at h
      have hcand : mp ∈ singleMatchCandidates t ps := by
        by_cases h1 : (singleMatchCandidates t ps).length = 1
        · rw [if_pos h1] at h
          exact List.mem_of_mem_head? (Option.mem_def.mpr h)
        · by_cases h2 : 1 < (singleMatchCandidates t ps).length
          · rw [if_neg h1, if_pos h2] at h
            exact (sortByDelta_head_min t.Value (singleMatchCandidates t ps)
              mp h).1
          · rw [if_neg h1, if_neg h2] at h
            exact absurd h (by simp)
      exact (List.mem_filter.mp hcand).1
    · rw [findMatchingProposal_untruthy env t ps hSingle
        (Bool.eq_false_iff.mpr hPid)] at h
      exact absurd h (by simp)

/-- The report/invoice fallback consumes no proposal, is never payment-only,
and never carries the proposal source tag. -/
lemma fallbackEnrich_spec (env : Env) (t : Transaction) :
    (fallbackEnrich env t).consumedProposal = none ∧
    (fallbackEnrich env t).fonteItens ≠ Source.proposal ∧
    (fallbackEnrich env t).paymentOnly = false ∧
    (fallbackEnrich env t).fonteItens ≠ Source.paymentOnly := by
  unfold fallbackEnrich
  by_cases h1 : (reportNamesOf t.NomeProcedimento).length ≤ 1
  · rw [if_pos h1]
    exact ⟨rfl, by simp, rfl, by simp⟩
  · rw [if_neg h1]
    by_cases h2 : (!natTruthy t.NumeroInvoice) = true
    · rw [if_pos h2]
      exact ⟨rfl, by simp, rfl, by simp⟩
    · rw [if_neg h2]
      by_cases h3 : (env.invoiceItems (t.NumeroInvoice.getD 0) t.Data).isEmpty = true
      · rw [if_pos h3]
        exact ⟨rfl, by simp, rfl, by simp⟩
      · rw [if_neg h3]
        exact ⟨rfl, by simp, rfl, by simp⟩

/-- A committed proposal path yields the proposal source, records the
consumed id, and appends exactly that previously unused id to the state. -/
lemma tryProposal_spec (env : Env) (used : List Nat) (t : Transaction)
    (r : Enriched × List Nat) (h : tryProposal env used t = some r) :
    ∃ i, r.1.consumedProposal = some i ∧ r.1.fonteItens = Source.proposal ∧
      r.1.paymentOnly = false ∧ i ∉ used ∧ r.2 = used ++ [i] := by
  unfold tryProposal at h
  rcases hP : t.PacienteID with _ | pid
  · simp only [hP] at h
    exact Option.noConfusion h
  · simp only [hP] at h
    by_cases hp : pid ≠ 0
    · rw [if_pos hp] at h
      by_cases hav : (!((fetchPatientProposalsM env pid t.Data).filter
          (fun p => !used.contains p.proposal_id)).isEmpty) = true
      · rw [if_pos hav] at h
        rcases hfm : findMatchingProposal env t
            ((fetchPatientProposalsM env pid t.Data).filter
              (fun p => !used.contains p.proposal_id)) with _ | mp
        · simp only [hfm] at h
          exact Option.noConfusion h
        · simp only [hfm] at h
          by_cases hit : (!mp.items.isEmpty) = true
          · rw [if_pos hit] at h
            have hr := Option.some.inj h
            have hmem := findMatchingProposal_mem env t _ mp hfm
            have hnotused : mp.proposal_id ∉ used := by
              have hflt := (List.mem_filter.mp hmem).2
              simpa using hflt
            refine ⟨mp.proposal_id, ?_, ?_, ?_, hnotused, ?_⟩ <;>
              rw [← hr]
          · rw [if_neg hit] at h
            exact Option.noConfusion h
      · rw [if_neg hav] at h
        exact Option.noConfusion h
    · rw [if_neg hp] at h
      exact Option.noConfusion h

/-- Each enrichment step either consumes no proposal and leaves the used set
unchanged, or consumes one previously unused proposal id, appends it, and
tags the result with the proposal source. -/
lemma enrich_step (env : Env) (used : List Nat) (t : Transaction) :
    ((enrichTransactionWithItems env used t).1.consumedProposal = none ∧
      (enrichTransactionWithItems env used t).1.fonteItens ≠ Source.proposal ∧
      (enrichTransactionWithItems env used t).2 = used) ∨
    (∃ i, (enrichTransactionWithItems env used t).1.consumedProposal = some i ∧
      (enrichTransactionWithItems env used t).1.fonteItens = Source.proposal ∧
      i ∉ used ∧
      (enrichTransactionWithItems env used t).2 = used ++ [i]) := by
  unfold enrichTransactionWithItems
  by_cases hpo : paymentOnlyHit env t
  · rw [if_pos hpo]
    left
    exact ⟨rfl, by simp, rfl⟩
  · rw [if_neg hpo]
    rcases htp : tryProposal env used t with _ | r
    · simp only [htp]
      left
      obtain ⟨h1, h2, _, _⟩ := fallbackEnrich_spec env t
      exact ⟨h1, h2, by simp⟩
    · simp only [htp]
      right
      obtain ⟨i, h1, h2, _, h4, h5⟩ := tryProposal_spec env used t r htp
      exact ⟨i, h1, h2, h4, h5⟩

/-- Claim C5: when a transaction's invoice resolves to a proposal date more
than 30 days away from the transaction date, enrichment terminates at once
as payment-only with an empty item list and an unchanged used set; at 30
days or fewer it continues into the proposal, report or invoice paths and
never produces the payment-only state. -/
theorem c5_payment_only_threshold (env : Env) (used : List Nat)
    (t : Transaction) (inv : Nat) (pd : DateDMY)
    (h1 : t.NumeroInvoice = some inv) (h2 : inv ≠ 0)
    (h3 : env.invoiceProposalDate inv = some pd) :
    (30 < daysDiffD pd t.Data →
      enrichTransactionWithItems env used t =
        (⟨t, true, Source.paymentOnly, [], none⟩, used)) ∧
    (daysDiffD pd t.Data ≤ 30 →
      (enrichTransactionWithItems env used t).1.paymentOnly = false ∧
      (enrichTransactionWithItems env used t).1.fonteItens ≠
        Source.paymentOnly) := by
  constructor
  · intro hfar
    have hne : pd ≠ t.Data := by
      intro he
      rw [he] at hfar
      simp [daysDiffD] at hfar
    have hhit : paymentOnlyHit env t = true := by
      unfold paymentOnlyHit
      simp only [h1]
      rw [if_pos h2]
      simp only [h3]
      simp [hne, hfar]
    unfold enrichTransactionWithItems
    rw [if_pos hhit]
  · intro hnear
    have hhit : paymentOnlyHit env t = false := by
      unfold paymentOnlyHit
      simp only [h1]
      rw [if_pos h2]
      simp only [h3]
      simp only [Bool.and_eq_false_iff, decide_eq_false_iff_not]
      right
      omega
    unfold enrichTransactionWithItems
    rw [hhit]
    simp only [Bool.false_eq_true, if_false]
    rcases htp : tryProposal env used t with _ | r
    · obtain ⟨_, _, h3f, h4f⟩ := fallbackEnrich_spec env t
      exact ⟨h3f, h4f⟩
    · obtain ⟨i, _, hsrc, hpay, _, _⟩ := tryProposal_spec env used t r htp
      constructor
      · exact hpay
      · rw [hsrc]
        simp

/-- Environment for the C5 witness: invoice 42 stems from 2025-11-01 and
invoice 43 from 2026-01-20. -/
def c5Env : Env :=
  ⟨fun inv => if inv = 42 then some ⟨1, 11, 2025⟩
    else if inv = 43 then some ⟨20, 1, 2026⟩ else none,
   fun _ _ => [], fun _ _ => [], fun _ => none, fun _ _ => ⟨[], false⟩⟩

/-- Scenario C transaction: paid 2026-02-05 against invoice 42 (96 days). -/
def c5T1 : Transaction :=
  ⟨some 1, "C".data, ⟨5, 2, 2026⟩, 100, "Consulta".data, some 16, some 42, 0⟩

/-- A transaction 16 days after its invoice 43. -/
def c5T2 : Transaction :=
  ⟨some 1, "C".data, ⟨5, 2, 2026⟩, 100, "Consulta".data, some 16, some 43, 0⟩

/-- Witness for C5: scenario C terminates as payment-only; the recent
invoice does not. -/
theorem c5_payment_only_threshold_witness :
    enrichTransactionWithItems c5Env [] c5T1 =
      (⟨c5T1, true, Source.paymentOnly, [], none⟩, []) ∧
    ((enrichTransactionWithItems c5Env [] c5T2).1.paymentOnly = false ∧
      (enrichTransactionWithItems c5Env [] c5T2).1.fonteItens ≠
        Source.paymentOnly) :=
  ⟨(c5_payment_only_threshold c5Env [] c5T1 42 ⟨1, 11, 2025⟩ rfl (by decide)
      rfl).1 (by decide),
   (c5_payment_only_threshold c5Env [] c5T2 43 ⟨20, 1, 2026⟩ rfl (by decide)
      rfl).2 (by decide)⟩

/-- The enrichment loop appends exactly the consumed proposal ids to the
used set, keeps that set duplicate-free, and tags a result with the
proposal source exactly when it consumed a proposal. -/
lemma enrichAll_spec (env : Env) :
    ∀ (txs : List Transaction) (used : List Nat),
      (enrichAll env used txs).2 =
        used ++ consumedIds (enrichAll env used txs).1 ∧
      (used.Nodup → (enrichAll env used txs).2.Nodup) ∧
      (∀ e ∈ (enrichAll env used txs).1,
        e.consumedProposal.isSome ↔ e.fonteItens = Source.proposal) := by
  intro txs
  induction txs with
  | nil =>
    intro used
    exact ⟨by simp [enrichAll, consumedIds], fun h => h, by simp [enrichAll]⟩
  | cons t ts ih =>
    intro used
    have hstep : enrichAll env used (t :: ts) =
        ((enrichTransactionWithItems env used t).1 ::
          (enrichAll env (enrichTransactionWithItems env used t).2 ts).1,
         (enrichAll env (enrichTransactionWithItems env used t).2 ts).2) := rfl
    rcases enrich_step env used t with ⟨h1, h2, h3⟩ | ⟨i, h1, h2, h3, h4⟩
    · obtain ⟨ihA, ihB, ihC⟩ := ih used
      have hAll : enrichAll env used (t :: ts) =
          ((enrichTransactionWithItems env used t).1 ::
            (enrichAll env used ts).1, (enrichAll env used ts).2) := by
        rw [hstep, h3]
      rw [hAll]
      have hcons : consumedIds ((enrichTransactionWithItems env used t).1 ::
          (enrichAll env used ts).1) = consumedIds (enrichAll env used ts).1 := by
        simp [consumedIds, h1]
      refine ⟨?_, fun hnd => ihB hnd, ?_⟩
      · show (enrichAll env used ts).2 = used ++
          consumedIds ((enrichTransactionWithItems env used t).1 ::
            (enrichAll env used ts).1)
        rw [hcons]
        exact ihA
      · intro e he
        rcases List.mem_cons.mp he with he | he
        · subst he
          rw [h1]
          simp only [Option.isSome_none, Bool.false_eq_true, false_iff]
          exact h2
        · exact ihC e he
    · obtain ⟨ihA, ihB, ihC⟩ := ih (used ++ [i])
      have hAll : enrichAll env used (t :: ts) =
          ((enrichTransactionWithItems env used t).1 ::
            (enrichAll env (used ++ [i]) ts).1,
           (enrichAll env (used ++ [i]) ts).2) := by
        rw [hstep, h4]
      rw [hAll]
      have hcons : consumedIds ((enrichTransactionWithItems env used t).1 ::
          (enrichAll env (used ++ [i]) ts).1) =
          i :: consumedIds (enrichAll env (used ++ [i]) ts).1 := by
        simp [consumedIds, h1]
      refine ⟨?_, ?_, ?_⟩
      · show (enrichAll env (used ++ [i]) ts).2 = used ++
          consumedIds ((enrichTransactionWithItems env used t).1 ::
            (enrichAll env (used ++ [i]) ts).1)
        rw [hcons, ihA]
        simp
      · show used.Nodup → (enrichAll env (used ++ [i]) ts).2.Nodup
        intro hnd
        refine ihB ?_
        rw [List.nodup_append]
        refine ⟨hnd, List.nodup_singleton i, ?_⟩
        intro a ha hb
        rw [List.mem_singleton.mp hb] at ha
        exact h3 ha
      · intro e he
        rcases List.mem_cons.mp he with he | he
        · subst he
          rw [h1, h2]
          simp
        · exact ihC e he

/-- Claim C1: within one batch no two enriched transactions consume the
same proposal — the list of consumed proposal ids is duplicate-free — and a
transaction records a consumed proposal exactly when its source tag is
proposal. -/
theorem c1_proposal_exclusivity (env : Env) (st : BatchState)
    (txs : List Transaction) :
    (consumedIds (fetchDetailedTransactionsM env st txs).1).Nodup ∧
    ∀ e ∈ (fetchDetailedTransactionsM env st txs).1,
      (e.consumedProposal.isSome ↔ e.fonteItens = Source.proposal) := by
  obtain ⟨hA, hB, hC⟩ := enrichAll_spec env txs []
  constructor
  · have := hB List.nodup_nil
    rw [hA] at this
    simpa using this
  · intro e he
    exact hC e he

/-- The single executed proposal of the C1 witness patient. -/
def c1P : Proposal :=
  ⟨900, "Executada".data, 100, [⟨16, "Consulta".data, 100, 1, 0, 0⟩]⟩

/-- Environment for the C1 witness: patient 1 has exactly one executed
proposal. -/
def c1Env : Env :=
  ⟨fun _ => none, fun pid _ => if pid = 1 then [c1P] else [],
   fun _ _ => [], fun _ => none, fun _ _ => ⟨[], false⟩⟩

/-- A transaction matching that proposal (run twice in one batch). -/
def c1T : Transaction :=
  ⟨some 1, "A".data, ⟨5, 2, 2026⟩, 100, "Consulta".data, some 16, none, 0⟩

/-- Witness for C1: the same transaction twice in one batch consumes the
proposal only once. -/
theorem c1_proposal_exclusivity_witness :
    (consumedIds (fetchDetailedTransactionsM c1Env ⟨[], []⟩ [c1T, c1T]).1).Nodup ∧
    ((⟨c1T, false, Source.proposal, proposalItems c1P, some 900⟩ :
        Enriched).consumedProposal.isSome ↔
      (⟨c1T, false, Source.proposal, proposalItems c1P, some 900⟩ :
        Enriched).fonteItens = Source.proposal) :=
  ⟨(c1_proposal_exclusivity c1Env ⟨[], []⟩ [c1T, c1T]).1,
   (c1_proposal_exclusivity c1Env ⟨[], []⟩ [c1T, c1T]).2
     ⟨c1T, false, Source.proposal, proposalItems c1P, some 900⟩ (by decide)⟩

/-- Appointment returned for the first (February) batch of the C9 run. -/
def c9Env1 : Env :=
  ⟨fun _ => none, fun _ _ => [], fun _ _ => [], fun _ => none,
   fun pid _ => if pid = 7 then ⟨[⟨"05-02-2026".data, false, []⟩], false⟩
     else ⟨[], false⟩⟩

/-- Appointment state of the same patient at the second (March) batch. -/
def c9Env2 : Env :=
  ⟨fun _ => none, fun _ _ => [], fun _ _ => [], fun _ => none,
   fun pid _ => if pid = 7 then ⟨[⟨"06-03-2026".data, false, []⟩], false⟩
     else ⟨[], false⟩⟩

/-- The appointments cache left behind by the first batch's check. -/
def c9Stale : List (Nat × ApptFetch) :=
  (checkAppointmentDateM c9Env1 [] 7 "05/02/2026".data).2

/-- Claim C9 (code bug): a new batch clears the used-proposal set but never
the appointments cache — clearAppointmentsCache has no caller — so the stale
entry of a previous batch survives into the next batch and makes the
appointment check miss the patient's appointment on the new date, which a
cleared cache would have found. -/
theorem c9_appointments_cache_not_cleared :
    (∀ env st txs,
      (fetchDetailedTransactionsM env st txs).2.apptCache = st.apptCache) ∧
    (fetchDetailedTransactionsM c9Env2 ⟨[999], c9Stale⟩ []).2 = ⟨[], c9Stale⟩ ∧
    (checkAppointmentDateM c9Env2 c9Stale 7
      "06/03/2026".data).1.hasAppointmentToday = false ∧
    (checkAppointmentDateM c9Env2 [] 7
      "06/03/2026".data).1.hasAppointmentToday = true :=
  ⟨fun _ _ _ => rfl, by decide, by decide, by decide⟩

end AgenteFinanceiro
